import Mathlib

set_option maxRecDepth 100000

/-!
Shallow embedding of `app.py` from the latex-to-scorm converter.

Zip archives are modelled as association lists of members in archive
listing order: a member is a pair of its full path and its content
(bytes are modelled as strings; image bytes are only passed through
unchanged, and the `.tex` member is decoded with replacement, which is
transparent at this level of abstraction).  The external
`pylatexenc.latex2text` conversion is opaque third-party code and is
modelled as an explicit function parameter `conv`; concrete runs
instantiate it with the identity.  The external `python-docx` paragraph
extraction is likewise modelled as an explicit `paragraphs` input.
-/

/-- Lowercase a character list; models Python `str.lower` on the ASCII
names involved. -/
def lowerL (s : List Char) : List Char := s.map Char.toLower

/-- Characters removed by Python `str.strip()` (ASCII whitespace). -/
def pySpace (c : Char) : Bool :=
  c == ' ' || c == '\t' || c == '\n' || c == '\r' || c == '\x0b' || c == '\x0c'

/-- Python `str.strip()`. -/
def stripL (s : List Char) : List Char :=
  ((s.dropWhile pySpace).reverse.dropWhile pySpace).reverse

/-- Python `os.path.basename`: the part after the last slash. -/
def basenameL (s : List Char) : List Char :=
  s.foldl (fun acc c => if c == '/' then [] else acc ++ [c]) []

/-- The suffix of `s` starting at its last dot (inclusive). -/
def afterLastDot (s : List Char) : List Char :=
  s.foldl (fun acc c => if c == '.' then ['.'] else if acc.isEmpty then [] else acc ++ [c]) []

/-- Python `os.path.splitext(path)[1]`: the extension of the basename,
including the dot, empty when the basename has no dot after its leading
dots. -/
def extOfPath (s : List Char) : List Char :=
  let b := basenameL s
  if (b.dropWhile (fun c => c == '.')).contains '.' then afterLastDot b else []

/-- Python `text.replace("\n", "<br>")` from `app.py` lines 49, 105, 183. -/
def replaceNL (s : List Char) : List Char :=
  s.flatMap (fun c => if c == '\n' then ("<br>".toList) else [c])

/-- Strip the prefix `p` from `s`, returning the remainder on success. -/
def dropPre (p s : List Char) : Option (List Char) :=
  match p, s with
  | [], rest => some rest
  | _ :: _, [] => none
  | c :: p2, d :: s2 => if c == d then dropPre p2 s2 else none

/-- Substring test (Python `needle in hay`). -/
def containsSub : List Char → List Char → Bool
  | [], needle => needle.isEmpty
  | c :: rest, needle => needle.isPrefixOf (c :: rest) || containsSub rest needle

/-- Error taxonomy of the spec for the failures modelled here:
`missingSourceError` is the `ValueError` raised at `app.py` line 23 when
the archive holds no `.tex` member, `pdfProcessingError` the exception
re-raised at line 129 when PDF extraction fails. -/
inductive ConvError where
  | missingSourceError : ConvError
  | pdfProcessingError : ConvError
deriving DecidableEq

/-- `app.py` line 21: `f.lower().endswith(".tex")`. -/
def isTex (m : String × String) : Bool :=
  (".tex".toList).isSuffixOf (lowerL m.1.toList)

/-- `app.py` line 34: `lower_f.endswith((".png", ".jpg", ".jpeg", ".gif"))`. -/
def isImg (m : String × String) : Bool :=
  let l := lowerL m.1.toList
  (".png".toList).isSuffixOf l || (".jpg".toList).isSuffixOf l ||
    (".jpeg".toList).isSuffixOf l || (".gif".toList).isSuffixOf l

/-- Match `\{([^}]+)\}` at the front of `s`, returning the group and the
remainder. -/
def igBrace (s : List Char) : Option (List Char × List Char) :=
  match s with
  | '{' :: t =>
    match t.dropWhile (fun c => c != '}') with
    | '}' :: v =>
      let ref := t.takeWhile (fun c => c != '}')
      if ref.isEmpty then none else some (ref, v)
    | _ => none
  | _ => none

/-- Match `(?:\[[^\]]*\])?\{([^}]+)\}` at the front of `s`. -/
def igAfterOpt (s : List Char) : Option (List Char × List Char) :=
  match s with
  | '[' :: t =>
    match t.dropWhile (fun c => c != ']') with
    | ']' :: v => igBrace v
    | _ => none
  | _ => igBrace s

/-- Match the full `app.py` line 39 pattern
`\\includegraphics(?:\[[^\]]*\])?\{([^}]+)\}` at the front of `s`. -/
def igMatch (s : List Char) : Option (List Char × List Char) :=
  match dropPre ("\\includegraphics".toList) s with
  | some r => igAfterOpt r
  | none => none

/-- Left-to-right scan of `re.sub` with the include-graphics pattern,
replacing each match by the `[IMG::ref]` placeholder of `app.py` line 42.
The fuel argument bounds the recursion; one unit is spent per consumed
character, so `s.length` is always enough. -/
def subIGF : Nat → List Char → List Char
  | 0, s => s
  | _ + 1, [] => []
  | fuel + 1, c :: rest =>
    match igMatch (c :: rest) with
    | some (ref, rest2) => ("[IMG::".toList) ++ ref ++ [']'] ++ subIGF fuel rest2
    | none => c :: subIGF fuel rest

/-- `re.sub(pattern, replace_graphics, latex_content)` of `app.py` line 44. -/
def subIG (s : List Char) : List Char := subIGF s.length s

/-- Match `\[IMG::(.*?)\]` at the front of `s`: the literal opener, then a
shortest run of characters other than `]` (and other than newline, which
`.` does not match), then `]`. -/
def phMatch (s : List Char) : Option (List Char × List Char) :=
  match dropPre ("[IMG::".toList) s with
  | some r =>
    match r.dropWhile (fun c => c != ']' && c != '\n') with
    | ']' :: v => some (r.takeWhile (fun c => c != ']' && c != '\n'), v)
    | _ => none
  | none => none

/-- The inline image element emitted at `app.py` line 75 for a resolved
reference with base filename `b`. -/
def brImg (b : List Char) : List Char :=
  ("<br><img src=\"".toList) ++ b ++ ("\" alt=\"".toList) ++ b ++ ("\"><br>".toList)

/-- The inline warning emitted at `app.py` line 77 for an unresolved
reference `n`. -/
def brWarn (n : List Char) : List Char :=
  ("<br><strong>[Bild nicht gefunden: ".toList) ++ n ++ ("]</strong><br>".toList)

/-- The retry extensions of `app.py` line 65, in their fixed order. -/
def imgExts : List (List Char) := [".png".toList, ".jpg".toList, ".jpeg".toList, ".gif".toList]

/-- The image-reference resolver, `app.py` lines 56-72: first a
case-insensitive match of each pool key's base filename against the
reference, then retries with each known extension appended. -/
def findKey (keys : List String) (imgName : List Char) : Option String :=
  match keys.find? (fun k => lowerL (basenameL k.toList) == lowerL imgName) with
  | some k => some k
  | none =>
    imgExts.findSome? (fun ext =>
      keys.find? (fun k => lowerL (basenameL k.toList) == lowerL (imgName ++ ext)))

/-- `replace_img_placeholder` of `app.py` lines 52-77, applied to the
regex group `grp`. -/
def replaceImgPlaceholder (pool : List (String × String)) (grp : List Char) : List Char :=
  let imgName := stripL grp
  match findKey (pool.map Prod.fst) imgName with
  | some k => brImg (basenameL k.toList)
  | none => brWarn imgName

/-- Left-to-right scan of `re.sub` with the placeholder pattern,
`app.py` line 79. -/
def subPhF (pool : List (String × String)) : Nat → List Char → List Char
  | 0, s => s
  | _ + 1, [] => []
  | fuel + 1, c :: rest =>
    match phMatch (c :: rest) with
    | some (ref, rest2) => replaceImgPlaceholder pool ref ++ subPhF pool fuel rest2
    | none => c :: subPhF pool fuel rest

/-- `re.sub` with the placeholder pattern over the whole text. -/
def subPh (pool : List (String × String)) (s : List Char) : List Char := subPhF pool s.length s

/-- Opening of the HTML shell of `app.py` lines 82-85 (with its literal
newlines). -/
def latexShellPre : List Char :=
  ("<html>\n<head><meta charset='utf-8'><title>Konvertiertes LaTeX</title></head>\n<body>".toList)

/-- Closing of the HTML shell of `app.py` lines 82-85. -/
def latexShellPost : List Char := ("</body>\n</html>".toList)

/-- Lines 38-85 of `app.py`: placeholder substitution, the opaque LaTeX
to text conversion `conv`, newline canonicalization, placeholder
resolution and the shell. -/
def buildLatexHtml (conv : String → String) (tex : String) (pool : List (String × String)) : String :=
  let modified := String.mk (subIG tex.toList)
  let converted := conv modified
  let broken := replaceNL converted.toList
  String.mk (latexShellPre ++ subPh pool broken ++ latexShellPost)

/-- `parse_latex_zip_to_html_with_images`, `app.py` lines 11-89.  The
archive is given as its member list in listing order; the image pool is
keyed by the full member path (line 36). -/
def parse_latex_zip (conv : String → String) (members : List (String × String)) :
    Except ConvError (String × List (String × String)) :=
  match members.filter isTex with
  | [] => Except.error ConvError.missingSourceError
  | t :: _ =>
    let pool := members.filter isImg
    Except.ok (buildLatexHtml conv t.2 pool, pool)

/-- Collect the `X` of every `<img src="X"` occurrence in a character
list, in order. -/
def imgSrcsF : Nat → List Char → List String
  | 0, _ => []
  | _ + 1, [] => []
  | fuel + 1, c :: rest =>
    match dropPre ("<img src=\"".toList) (c :: rest) with
    | some r =>
      String.mk (r.takeWhile (fun x => x != '"')) :: imgSrcsF fuel (r.dropWhile (fun x => x != '"'))
    | none => imgSrcsF fuel rest

/-- All `<img src="...">` targets of an HTML string. -/
def imgSrcs (s : List Char) : List String := imgSrcsF s.length s

/-- The fixed SCORM 1.2 manifest of `app.py` lines 198-214. -/
def scormManifest : String :=
  "<?xml version=\"1.0\" encoding=\"UTF-8\"?>\n<manifest identifier=\"com.example.scorm\" version=\"1.2\">\n  <organizations default=\"ORG-1\">\n    <organization identifier=\"ORG-1\">\n      <title>Konvertiertes Dokument</title>\n      <item identifier=\"ITEM-1\" identifierref=\"RES-1\">\n        <title>Startseite</title>\n      </item>\n    </organization>\n  </organizations>\n  <resources>\n    <resource identifier=\"RES-1\" type=\"webcontent\" href=\"index.html\">\n      <file href=\"index.html\"/>\n    </resource>\n  </resources>\n</manifest>\n"

/-- The `index.html` wrapper of `app.py` lines 216-226 (with its literal
newlines and indentation). -/
def html_wrapper (html : String) : String :=
  "<!DOCTYPE html>\n<html>\n<head>\n    <meta charset=\"utf-8\">\n    <title>Konvertiertes Dokument</title>\n</head>\n<body>\n    " ++ html ++ "\n</body>\n</html>\n"

/-- `create_scorm_package`, `app.py` lines 190-238: the produced zip,
modelled as its member list in write order. -/
def create_scorm_package (html : String) (files : List (String × String)) : List (String × String) :=
  ("index.html", html_wrapper html) :: ("imsmanifest.xml", scormManifest) :: files

/-- Extraction from the produced zip: `zipfile` resolves a member name to
the last entry written under that name. -/
def readMember (entries : List (String × String)) (k : String) : Option String :=
  List.lookup k entries.reverse

/-- The app flow of `app.py` lines 278-282 for an uploaded zip: parse,
then package; an error aborts before any package is built. -/
def convertZip (conv : String → String) (members : List (String × String)) :
    Except ConvError (List (String × String)) :=
  match parse_latex_zip conv members with
  | Except.error e => Except.error e
  | Except.ok r => Except.ok (create_scorm_package r.1 r.2)

/-- A raster image of a PDF page: its original format tag and bytes, as
returned by `doc.extract_image` (`app.py` lines 113-115). -/
structure PdfImage where
  ext : String
  data : String
deriving DecidableEq

/-- A PDF page: its extracted text and its images in the page's
enumeration order; `none` stands for an image whose extraction raises. -/
structure PdfPage where
  text : String
  images : List (Option PdfImage)
deriving DecidableEq

/-- A successfully opened PDF document. -/
structure PdfDoc where
  pages : List PdfPage
deriving DecidableEq

/-- The image filename of `app.py` line 116,
`pdf_image_{page_index+1}_{image_counter}.{img_ext}`. -/
def pdfFileName (pidx counter : Nat) (ext : String) : String :=
  "pdf_image_" ++ toString (pidx + 1) ++ "_" ++ toString counter ++ "." ++ ext

/-- The inline tag of `app.py` line 119. -/
def pdfImgTag (pidx counter : Nat) (fname : String) : String :=
  "<br><img src=\"" ++ fname ++ "\" alt=\"Seite" ++ toString (pidx + 1) ++ "-Bild" ++ toString counter ++ "\"><br>"

/-- The inner image loop of `app.py` lines 111-120 on one page: threads
the global `image_counter`, collecting tags and dictionary entries, and
fails if any extraction fails. -/
def pdfPageImages (pidx : Nat) : List (Option PdfImage) → Nat →
    Option (List String × List (String × String) × Nat)
  | [], counter => some ([], [], counter)
  | none :: _, _ => none
  | some img :: rest, counter =>
    let fname := pdfFileName pidx counter img.ext
    match pdfPageImages pidx rest (counter + 1) with
    | some (tags, dict, c2) =>
      some (pdfImgTag pidx counter fname :: tags, (fname, img.data) :: dict, c2)
    | none => none

/-- The page loop of `app.py` lines 103-120: heading, canonicalized text,
then the page's image tags; the counter is threaded across pages. -/
def pdfPages : List PdfPage → Nat → Nat → Option (List String × List (String × String) × Nat)
  | [], _, counter => some ([], [], counter)
  | pg :: rest, pidx, counter =>
    match pdfPageImages pidx pg.images counter with
    | none => none
    | some (tags, dict, c2) =>
      match pdfPages rest (pidx + 1) c2 with
      | none => none
      | some (texts, dict2, c3) =>
        some (("<h3>Seite " ++ toString (pidx + 1) ++ "</h3>") ::
                String.mk (replaceNL pg.text.toList) :: (tags ++ texts),
              dict ++ dict2, c3)

/-- `parse_pdf_to_html_with_images`, `app.py` lines 92-129.  The second
component records whether `doc.close()` (line 122) ran: it is on the
success path only; the `except` clause (lines 128-129) re-raises without
closing. -/
def parse_pdf (doc : PdfDoc) : Except ConvError (String × List (String × String)) × Bool :=
  match pdfPages doc.pages 0 1 with
  | some r =>
    (Except.ok ("<html><head><meta charset='utf-8'><title>Konvertiertes PDF</title></head><body>"
        ++ String.join r.1 ++ "</body></html>", r.2.1), true)
  | none => (Except.error ConvError.pdfProcessingError, false)

/-- Number of images on the pages before page `p` (0-based). -/
def pdfPrior (pages : List PdfPage) (p : Nat) : Nat :=
  ((pages.take p).map (fun pg => pg.images.length)).sum

/-- Total number of images of a document. -/
def pdfTotalImages (pages : List PdfPage) : Nat :=
  ((pages.map (fun pg => pg.images.length)).sum)

/-- Format tag of an extractable image. -/
def imgExtOf : Option PdfImage → String
  | some i => i.ext
  | none => ""

/-- Specification-side statement of the actual PDF naming scheme: the
image at 0-based position `k` of 0-based page `p` is named with page
number `p + 1` and counter `(images on earlier pages) + k + 1`; the
counter is global, not per page. -/
def pdfSpecNames (pages : List PdfPage) : List String :=
  pages.enum.flatMap (fun pe =>
    pe.2.images.enum.map (fun ie => pdfFileName pe.1 (pdfPrior pages pe.1 + ie.1 + 1) (imgExtOf ie.2)))

/-- Names generated for one page's images starting at counter value
`counter` (proof intermediary). -/
def pdfNamesFrom (pidx : Nat) : Nat → List (Option PdfImage) → List String
  | _, [] => []
  | counter, i :: rest => pdfFileName pidx counter (imgExtOf i) :: pdfNamesFrom pidx (counter + 1) rest

/-- Names generated from page `pidx` on, starting at counter value
`counter` (proof intermediary). -/
def pdfNamesPages : Nat → Nat → List PdfPage → List String
  | _, _, [] => []
  | pidx, counter, pg :: rest =>
    pdfNamesFrom pidx counter pg.images ++ pdfNamesPages (pidx + 1) (counter + pg.images.length) rest

/-- Result of the DOCX parse together with its file-system effects: the
paths it wrote and the paths it removed. -/
structure DocxResult where
  html : String
  images : List (String × String)
  writtenPaths : List String
  deletedPaths : List String
deriving DecidableEq

/-- `app.py` line 151: members whose lowercased path starts with
`word/media/`. -/
def mediaOf (members : List (String × String)) : List (String × String) :=
  members.filter (fun m => ("word/media/".toList).isPrefixOf (lowerL m.1.toList))

/-- `app.py` lines 152-157: the extracted images, named
`docx_image_<n><ext>` with `n` the 1-based position and `ext` the
original member's extension (dot included). -/
def docx_image_entries (members : List (String × String)) : List (String × String) :=
  (mediaOf members).enum.map (fun im =>
    ("docx_image_" ++ toString (im.1 + 1) ++ String.mk (extOfPath im.2.1.toList), im.2.2))

/-- `parse_docx_to_html_with_images`, `app.py` lines 132-171.  The
paragraph texts delivered by the external `python-docx` library are an
explicit input; the staging write of lines 139-141 is recorded in
`writtenPaths`, and nothing is ever deleted. -/
def parse_docx (paragraphs : List String) (members : List (String × String)) : DocxResult :=
  let text_html := String.intercalate "<br>" (paragraphs.filter (fun p => !(stripL p.toList).isEmpty))
  let images := docx_image_entries members
  let imgBlock :=
    if images.isEmpty then "" else
      "<hr><h4>Eingebettete Bilder:</h4>" ++
        String.join (images.map (fun im => "<br><img src=\"" ++ im.1 ++ "\" alt=\"" ++ im.1 ++ "\"><br>"))
  { html := "<html><head><meta charset='utf-8'><title>Konvertiertes DOCX</title></head><body>"
      ++ text_html ++ imgBlock ++ "</body></html>",
    images := images,
    writtenPaths := ["temp_upload.docx"],
    deletedPaths := [] }

theorem findKey_mem {keys : List String} {n : List Char} {k : String}
    (h : findKey keys n = some k) : k ∈ keys := by
  unfold findKey at h
  split at h
  · next h1 =>
    cases h
    exact List.mem_of_find?_eq_some h1
  · obtain ⟨ext, _, h2⟩ := List.exists_of_findSome?_eq_some h
    exact List.mem_of_find?_eq_some h2

/-- C1 (amended): each placeholder replacement is either an inline image
element whose `src` is the base filename of some key of the image pool
(the pool itself stays keyed by full archive paths), or the not-found
warning for the stripped reference. -/
theorem latex_img_src_is_pool_key_basename :
    ∀ (pool : List (String × String)) (grp : List Char),
      (∃ k, k ∈ pool.map Prod.fst ∧
          replaceImgPlaceholder pool grp = brImg (basenameL k.toList)) ∨
        replaceImgPlaceholder pool grp = brWarn (stripL grp) := by
  intro pool grp
  cases h : findKey (pool.map Prod.fst) (stripL grp) with
  | some k =>
    exact Or.inl ⟨k, findKey_mem h, by simp [replaceImgPlaceholder, h]⟩
  | none =>
    exact Or.inr (by simp [replaceImgPlaceholder, h])

/-- C1 (counterexample): for the archive with image member
`figs/diagram.png` and a source referencing `diagram`, the HTML holds
`<img src="diagram.png">` but `diagram.png` is not a key of the returned
mapping, whose only key is the full path `figs/diagram.png`. -/
theorem latex_img_src_not_a_pool_key :
    (parse_latex_zip id
        [("figs/diagram.png", "IMGDATA"), ("main.tex", "\\includegraphics{diagram}")]).toOption.map
        (fun r => (imgSrcs r.1.toList, r.2.map Prod.fst))
      = some (["diagram.png"], ["figs/diagram.png"])
    ∧ "diagram.png" ∉ (["figs/diagram.png"] : List String) := by
  exact ⟨rfl, by decide⟩

/-- C4 (counterexample): with the image pool member `figs/diagram.png`
and the reference `figs/diagram`, the resolver finds nothing: the HTML
has no `<img>` element at all and carries the not-found warning, while
the pool does contain the member. -/
theorem latex_dir_prefixed_reference_unresolved :
    (parse_latex_zip id
        [("figs/diagram.png", "D"), ("main.tex", "\\includegraphics{figs/diagram}")]).toOption.map
        (fun r => (imgSrcs r.1.toList, r.2.map Prod.fst,
          containsSub r.1.toList ("[Bild nicht gefunden: figs/diagram]".toList)))
      = some ([], ["figs/diagram.png"], true) := by
  exact rfl

/-- C4 (amended): the resolver compares the pool key's base filename
against the whole reference string (then against reference plus each
extension), so a directory-prefixed reference such as `figs/diagram`
never matches, while the bare reference `diagram` resolves to the member
`figs/diagram.png` and the conversion emits `<img src="diagram.png">`. -/
theorem latex_reference_resolution_basename_only :
    findKey ["figs/diagram.png"] ("figs/diagram".toList) = none
    ∧ findKey ["figs/diagram.png"] ("diagram".toList) = some "figs/diagram.png"
    ∧ (parse_latex_zip id
        [("figs/diagram.png", "D2"), ("doc.tex", "\\includegraphics{diagram}")]).toOption.map
        (fun r => imgSrcs r.1.toList)
      = some ["diagram.png"] := by
  exact ⟨rfl, rfl, rfl⟩

/-- C5 (counterexample): an unresolvable reference makes the conversion
succeed with the German literal `[Bild nicht gefunden: missing]` inside
`<strong>`, not the literal `[Image not found: missing]` the claim
states, and with no `<img>` element. -/
theorem latex_not_found_warning_is_german :
    (parse_latex_zip id [("main.tex", "\\includegraphics{missing}")]).toOption.map
        (fun r => (containsSub r.1.toList ("[Image not found: missing]".toList),
          containsSub r.1.toList ("<br><strong>[Bild nicht gefunden: missing]</strong><br>".toList),
          imgSrcs r.1.toList, r.2))
      = some (false, true, [], []) := by
  exact rfl

/-- C5 (amended): an unresolved reference is not an error: whenever the
resolver fails, the replacement is exactly the bold inline warning
`<br><strong>[Bild nicht gefunden: <stripped reference>]</strong><br>`
and no `<img>` tag, and whenever the archive has a `.tex` member the
parse returns a result. -/
theorem latex_unresolved_reference_warning :
    (∀ (pool : List (String × String)) (grp : List Char),
        findKey (pool.map Prod.fst) (stripL grp) = none →
        replaceImgPlaceholder pool grp = brWarn (stripL grp))
    ∧ ∀ (conv : String → String) (members : List (String × String)) (t : String × String)
        (rest : List (String × String)),
        members.filter isTex = t :: rest →
        ∃ r, parse_latex_zip conv members = Except.ok r := by
  constructor
  · intro pool grp h
    simp [replaceImgPlaceholder, h]
  · intro conv members t rest h
    rw [parse_latex_zip, h]
    exact ⟨_, rfl⟩

theorem latex_unresolved_reference_warning_witness :
    replaceImgPlaceholder [] ("missing".toList) = brWarn (stripL ("missing".toList))
    ∧ ∃ r, parse_latex_zip id [("main.tex", "x")] = Except.ok r :=
  ⟨latex_unresolved_reference_warning.1 [] ("missing".toList) (by decide),
   latex_unresolved_reference_warning.2 id [("main.tex", "x")] ("main.tex", "x") [] (by decide)⟩

/-- C6 (code bug): when an image extraction fails mid-page, the parse
aborts with a single error and no partial output, but the document
handle is NOT released: the success-path `doc.close()` of line 122 is
skipped and the `except` clause re-raises without closing. -/
theorem pdf_handle_not_closed_on_failure :
    parse_pdf ⟨[⟨"T", [none]⟩]⟩ = (Except.error ConvError.pdfProcessingError, false) := by
  exact rfl

/-- C9 (counterexample): the LaTeX parser's HTML shell and the packaged
`index.html` wrapper both carry raw newline characters. -/
theorem html_output_contains_raw_newlines :
    ((parse_latex_zip id [("main.tex", "hi")]).toOption.map
        (fun r => r.1.toList.contains '\n')) = some true
    ∧ (html_wrapper "x").toList.contains '\n' = true := by
  exact ⟨rfl, rfl⟩

theorem not_mem_replaceNL (s : List Char) : '\n' ∉ replaceNL s := by
  induction s with
  | nil => simp [replaceNL]
  | cons c t ih =>
    intro hmem
    rw [replaceNL, List.flatMap_cons] at hmem
    rcases List.mem_append.mp hmem with h | h
    · by_cases hc : c == '\n'
      · rw [if_pos hc] at h
        revert h
        decide
      · rw [if_neg hc] at h
        rcases List.mem_singleton.mp h with rfl
        exact hc (by decide)
    · exact ih h

/-- C9 (amended): the newline canonicalization applied to converted text
content leaves no raw newline behind; the raw newlines in the output come
only from the fixed HTML shells and the `index.html` wrapper. -/
theorem newline_replacement_removes_newlines :
    ∀ s : List Char, (replaceNL s).contains '\n' = false := by
  intro s
  have hm := not_mem_replaceNL s
  cases hcon : (replaceNL s).contains '\n' with
  | false => rfl
  | true => exact absurd (by simpa using hcon) hm

/-- C10 (counterexample): two distinct conversions stage at the same
fixed path `temp_upload.docx` (so the path is neither request-unique nor
unshared), and neither conversion removes any path, so the staged file
persists past the conversion. -/
theorem docx_staging_path_fixed_and_persisted :
    (parse_docx ["a"] []).writtenPaths = ["temp_upload.docx"]
    ∧ (parse_docx ["b", "c"] [("word/media/x.png", "P")]).writtenPaths = ["temp_upload.docx"]
    ∧ (parse_docx ["a"] []).deletedPaths = []
    ∧ (parse_docx ["b", "c"] [("word/media/x.png", "P")]).deletedPaths = [] := by
  exact ⟨rfl, rfl, rfl, rfl⟩

/-- C10 (amended): every DOCX conversion stages the upload at the one
fixed relative path `temp_upload.docx`, shared by all conversions, and
deletes nothing, so the staged file persists after the conversion. -/
theorem docx_staging_effects :
    ∀ (paragraphs : List String) (members : List (String × String)),
      (parse_docx paragraphs members).writtenPaths = ["temp_upload.docx"]
      ∧ (parse_docx paragraphs members).deletedPaths = [] := by
  intro paragraphs members
  exact ⟨rfl, rfl⟩

theorem lookup_eq_of_mem_nodup :
    ∀ (l : List (String × String)) (k v : String),
      (k, v) ∈ l → (l.map Prod.fst).Nodup → List.lookup k l = some v := by
  intro l
  induction l with
  | nil => intro k v h; cases h
  | cons hd tl ih =>
    intro k v hmem hnd
    obtain ⟨k2, v2⟩ := hd
    rw [List.lookup_cons]
    rcases List.mem_cons.mp hmem with heq | htl
    · cases heq
      simp
    · have hk : k ≠ k2 := by
        intro hkk
        subst hkk
        have : k ∈ tl.map Prod.fst := List.mem_map.mpr ⟨(k, v), htl, rfl⟩
        exact (List.nodup_cons.mp (by simpa using hnd)).1 this
      have hbeq : (k == k2) = false := beq_eq_false_iff_ne.mpr hk
      rw [hbeq]
      exact ih k v htl (List.nodup_cons.mp (by simpa using hnd)).2

theorem lookup_append_of_some :
    ∀ (l1 l2 : List (String × String)) (k v : String),
      List.lookup k l1 = some v → List.lookup k (l1 ++ l2) = some v := by
  intro l1
  induction l1 with
  | nil => intro l2 k v h; cases h
  | cons hd tl ih =>
    intro l2 k v h
    obtain ⟨k2, v2⟩ := hd
    rw [List.lookup_cons] at h
    rw [List.cons_append, List.lookup_cons]
    cases hb : (k == k2) with
    | true => rw [hb] at h; exact h
    | false => rw [hb] at h; exact ih l2 k v h

/-- C2 (confirmed): the produced package's member names are exactly
`index.html`, `imsmanifest.xml` and the keys of the image mapping, and
reading any asset member back yields exactly the bytes stored under that
key in the mapping. -/
theorem scorm_package_members_exact (html : String) (files : List (String × String))
    (hnd : (files.map Prod.fst).Nodup) :
    (create_scorm_package html files).map Prod.fst
        = "index.html" :: "imsmanifest.xml" :: files.map Prod.fst
    ∧ ∀ k v, (k, v) ∈ files → readMember (create_scorm_package html files) k = some v := by
  constructor
  · rfl
  · intro k v hmem
    have h1 : List.lookup k files.reverse = some v :=
      lookup_eq_of_mem_nodup files.reverse k v (List.mem_reverse.mpr hmem)
        (by rw [List.map_reverse]; exact List.nodup_reverse.mpr hnd)
    have h2 : (create_scorm_package html files).reverse
        = files.reverse ++ [("imsmanifest.xml", scormManifest), ("index.html", html_wrapper html)] := by
      simp [create_scorm_package]
    rw [readMember, h2]
    exact lookup_append_of_some files.reverse _ k v h1

theorem scorm_package_members_exact_witness :
    (create_scorm_package "H" [("pic.png", "BYTES")]).map Prod.fst
        = "index.html" :: "imsmanifest.xml" :: ["pic.png"]
    ∧ readMember (create_scorm_package "H" [("pic.png", "BYTES")]) "pic.png" = some "BYTES" :=
  ⟨(scorm_package_members_exact "H" [("pic.png", "BYTES")] (by decide)).1,
   (scorm_package_members_exact "H" [("pic.png", "BYTES")] (by decide)).2 "pic.png" "BYTES"
     (by decide)⟩

/-- C7 (confirmed): an archive with no member ending in `.tex`
(case-insensitively) fails with the missing-source error and the app flow
produces no package; when a `.tex` member exists, the parse succeeds and
is built from the first such member in archive listing order. -/
theorem latex_zip_missing_tex_and_first_selected :
    (∀ (conv : String → String) (members : List (String × String)),
        (∀ m ∈ members, isTex m = false) →
        parse_latex_zip conv members = Except.error ConvError.missingSourceError
        ∧ convertZip conv members = Except.error ConvError.missingSourceError)
    ∧ ∀ (conv : String → String) (pre : List (String × String)) (t : String × String)
        (post : List (String × String)),
        (∀ m ∈ pre, isTex m = false) → isTex t = true →
        parse_latex_zip conv (pre ++ t :: post)
          = Except.ok (buildLatexHtml conv t.2 ((pre ++ t :: post).filter isImg),
              (pre ++ t :: post).filter isImg) := by
  constructor
  · intro conv members h
    have hfil : members.filter isTex = [] :=
      List.filter_eq_nil_iff.mpr (by intro a ha; simp [h a ha])
    constructor
    · rw [parse_latex_zip, hfil]
    · rw [convertZip, parse_latex_zip, hfil]
  · intro conv pre t post hpre ht
    have hfil : (pre ++ t :: post).filter isTex = t :: post.filter isTex := by
      rw [List.filter_append, List.filter_eq_nil_iff.mpr (by intro a ha; simp [hpre a ha]),
        List.filter_cons_of_pos ht, List.nil_append]
    rw [parse_latex_zip, hfil]

theorem latex_zip_missing_tex_and_first_selected_witness :
    (parse_latex_zip id [("a.png", "x")] = Except.error ConvError.missingSourceError
      ∧ convertZip id [("a.png", "x")] = Except.error ConvError.missingSourceError)
    ∧ parse_latex_zip id [("a.png", "x"), ("b.tex", "hi"), ("c.tex", "later")]
        = Except.ok (buildLatexHtml id "hi"
            ([("a.png", "x"), ("b.tex", "hi"), ("c.tex", "later")].filter isImg),
          [("a.png", "x"), ("b.tex", "hi"), ("c.tex", "later")].filter isImg) :=
  ⟨latex_zip_missing_tex_and_first_selected.1 id [("a.png", "x")] (by decide),
   latex_zip_missing_tex_and_first_selected.2 id [("a.png", "x")] ("b.tex", "hi")
     [("c.tex", "later")] (by decide) (by decide)⟩

/-- C8 (confirmed): the DOCX image mapping lists exactly one entry per
`word/media/` member, in archive listing order, the `n`-th (1-based)
named `docx_image_<n>` plus the original member's extension and carrying
the original member's bytes. -/
theorem docx_media_names_sequential :
    ∀ (paragraphs : List String) (members : List (String × String)),
      (parse_docx paragraphs members).images.length = (mediaOf members).length
      ∧ ∀ i : Nat,
          (parse_docx paragraphs members).images.get? i
            = ((mediaOf members).get? i).map (fun m =>
                ("docx_image_" ++ toString (i + 1) ++ String.mk (extOfPath m.1.toList), m.2)) := by
  intro paragraphs members
  constructor
  · simp [parse_docx, docx_image_entries, List.enum_length]
  · intro i
    show (docx_image_entries members).get? i = _
    rw [docx_image_entries, List.get?_map, List.get?_enum, Option.map_map]
    rfl


theorem map_congrFun {α β : Type} (l : List α) (f g : α → β) (h : ∀ x, f x = g x) :
    l.map f = l.map g := by
  induction l with
  | nil => rfl
  | cons a t ih => simp only [List.map_cons, h a, ih]

theorem flatMap_congrFun {α β : Type} (l : List α) (f g : α → List β) (h : ∀ x, f x = g x) :
    l.flatMap f = l.flatMap g := by
  induction l with
  | nil => rfl
  | cons a t ih => simp only [List.flatMap_cons, h a, ih]

theorem enumFrom_map_shift {α β : Type} (g : Nat → α → β) :
    ∀ (l : List α) (c d : Nat),
      (List.enumFrom c l).map (fun ie => g (d + ie.1) ie.2)
        = (List.enumFrom (d + c) l).map (fun ie => g ie.1 ie.2) := by
  intro l
  induction l with
  | nil => intro c d; rfl
  | cons a t ih =>
    intro c d
    rw [List.enumFrom_cons, List.enumFrom_cons, List.map_cons, List.map_cons, ih (c + 1) d]
    rfl

theorem enumFrom_flatMap_shift {α β : Type} (g : Nat → α → List β) :
    ∀ (l : List α) (c d : Nat),
      (List.enumFrom c l).flatMap (fun pe => g (d + pe.1) pe.2)
        = (List.enumFrom (d + c) l).flatMap (fun pe => g pe.1 pe.2) := by
  intro l
  induction l with
  | nil => intro c d; rfl
  | cons a t ih =>
    intro c d
    rw [List.enumFrom_cons, List.enumFrom_cons, List.flatMap_cons, List.flatMap_cons, ih (c + 1) d]
    rfl

theorem pdfNamesFrom_eq (pidx : Nat) :
    ∀ (imgs : List (Option PdfImage)) (counter : Nat),
      pdfNamesFrom pidx counter imgs
        = (List.enumFrom counter imgs).map (fun ie => pdfFileName pidx ie.1 (imgExtOf ie.2)) := by
  intro imgs
  induction imgs with
  | nil => intro c; rfl
  | cons i t ih =>
    intro c
    rw [List.enumFrom_cons, List.map_cons]
    simp only [pdfNamesFrom]
    rw [ih (c + 1)]

theorem pdfPrior_zero (pages : List PdfPage) : pdfPrior pages 0 = 0 := by
  simp [pdfPrior]

theorem pdfPrior_succ (pg : PdfPage) (rest : List PdfPage) (p : Nat) :
    pdfPrior (pg :: rest) (p + 1) = pg.images.length + pdfPrior rest p := by
  simp [pdfPrior, List.take_succ_cons]

theorem pdfNamesPages_eq :
    ∀ (pages : List PdfPage) (pidx counter : Nat),
      pdfNamesPages pidx counter pages
        = pages.enum.flatMap (fun pe =>
            pe.2.images.enum.map (fun ie =>
              pdfFileName (pidx + pe.1) (counter + pdfPrior pages pe.1 + ie.1) (imgExtOf ie.2))) := by
  intro pages
  induction pages with
  | nil => intro pidx counter; rfl
  | cons pg rest ih =>
    intro pidx counter
    have hfirst : pdfNamesFrom pidx counter pg.images
        = pg.images.enum.map (fun ie =>
            pdfFileName (pidx + 0) (counter + pdfPrior (pg :: rest) 0 + ie.1) (imgExtOf ie.2)) := by
      rw [pdfNamesFrom_eq]
      exact (enumFrom_map_shift (fun n i => pdfFileName pidx n (imgExtOf i)) pg.images 0 counter).symm
    have hpoint : ∀ pe : Nat × PdfPage,
        pe.2.images.enum.map (fun ie =>
            pdfFileName (pidx + 1 + pe.1) (counter + pg.images.length + pdfPrior rest pe.1 + ie.1)
              (imgExtOf ie.2))
          = pe.2.images.enum.map (fun ie =>
            pdfFileName (pidx + (1 + pe.1)) (counter + pdfPrior (pg :: rest) (1 + pe.1) + ie.1)
              (imgExtOf ie.2)) := by
      intro pe
      have h1 : pdfPrior (pg :: rest) (1 + pe.1) = pg.images.length + pdfPrior rest pe.1 := by
        rw [Nat.add_comm 1 pe.1, pdfPrior_succ]
      refine map_congrFun _ _ _ ?_
      intro ie
      have h2 : pidx + 1 + pe.1 = pidx + (1 + pe.1) := by omega
      have h3 : counter + pg.images.length + pdfPrior rest pe.1 + ie.1
          = counter + (pg.images.length + pdfPrior rest pe.1) + ie.1 := by omega
      rw [h1, h2, h3]
    have hrest : pdfNamesPages (pidx + 1) (counter + pg.images.length) rest
        = (List.enumFrom 1 rest).flatMap (fun pe =>
            pe.2.images.enum.map (fun ie =>
              pdfFileName (pidx + pe.1) (counter + pdfPrior (pg :: rest) pe.1 + ie.1)
                (imgExtOf ie.2))) := by
      rw [ih (pidx + 1) (counter + pg.images.length)]
      have hshift := enumFrom_flatMap_shift
        (fun n p => p.images.enum.map (fun ie =>
          pdfFileName (pidx + n) (counter + pdfPrior (pg :: rest) n + ie.1) (imgExtOf ie.2)))
        rest 0 1
      refine Eq.trans ?_ hshift
      refine flatMap_congrFun _ _ _ ?_
      intro pe
      exact hpoint pe
    show pdfNamesFrom pidx counter pg.images
        ++ pdfNamesPages (pidx + 1) (counter + pg.images.length) rest = _
    rw [hfirst, hrest, show (pg :: rest).enum = (0, pg) :: List.enumFrom 1 rest from List.enum_cons,
      List.flatMap_cons]

theorem pdfPageImages_ok :
    ∀ (imgs : List (Option PdfImage)) (pidx counter : Nat),
      (∀ i ∈ imgs, i ≠ none) →
      ∃ tags dict, pdfPageImages pidx imgs counter = some (tags, dict, counter + imgs.length)
        ∧ dict.map Prod.fst = pdfNamesFrom pidx counter imgs := by
  intro imgs
  induction imgs with
  | nil =>
    intro pidx counter _
    exact ⟨[], [], by simp [pdfPageImages], by simp [pdfNamesFrom]⟩
  | cons i t ih =>
    intro pidx counter h
    match i with
    | none => exact absurd rfl (h none (by simp))
    | some img =>
      obtain ⟨tags, dict, heq, hmap⟩ :=
        ih pidx (counter + 1) (fun x hx => h x (List.mem_cons_of_mem _ hx))
      refine ⟨pdfImgTag pidx counter (pdfFileName pidx counter img.ext) :: tags,
        (pdfFileName pidx counter img.ext, img.data) :: dict, ?_, ?_⟩
      · have hlen : counter + (some img :: t).length = counter + 1 + t.length := by
          simp only [List.length_cons]
          omega
        rw [hlen]
        simp [pdfPageImages, heq]
      · simp only [List.map_cons, pdfNamesFrom, hmap]
        rfl

theorem pdfPages_ok :
    ∀ (pages : List PdfPage) (pidx counter : Nat),
      (∀ pg ∈ pages, ∀ i ∈ pg.images, i ≠ none) →
      ∃ texts dict, pdfPages pages pidx counter = some (texts, dict, counter + pdfTotalImages pages)
        ∧ dict.map Prod.fst = pdfNamesPages pidx counter pages := by
  intro pages
  induction pages with
  | nil =>
    intro pidx counter _
    exact ⟨[], [], by simp [pdfPages, pdfTotalImages], by simp [pdfNamesPages]⟩
  | cons pg rest ih =>
    intro pidx counter h
    obtain ⟨tags, dict1, heq1, hmap1⟩ :=
      pdfPageImages_ok pg.images pidx counter (h pg (by simp))
    obtain ⟨texts, dict2, heq2, hmap2⟩ :=
      ih (pidx + 1) (counter + pg.images.length)
        (fun p hp => h p (List.mem_cons_of_mem _ hp))
    refine ⟨("<h3>Seite " ++ toString (pidx + 1) ++ "</h3>") ::
        String.mk (replaceNL pg.text.toList) :: (tags ++ texts), dict1 ++ dict2, ?_, ?_⟩
    · have hlen : counter + pdfTotalImages (pg :: rest)
          = counter + pg.images.length + pdfTotalImages rest := by
        simp only [pdfTotalImages, List.map_cons, List.sum_cons]
        omega
      rw [hlen]
      simp [pdfPages, heq1, heq2]
    · simp only [List.map_append, hmap1, hmap2, pdfNamesPages]

/-- C3 (amended): for every PDF whose image extractions all succeed, the
image at 0-based position `k` of 0-based page `p` is named
`pdf_image_<p+1>_<c>.<ext>` with `c` the total number of images on
earlier pages plus `k` plus one: the counter is global over the whole
document and never restarts at a page boundary, so the 2-plus-1 example
yields `pdf_image_1_1`, `pdf_image_1_2`, `pdf_image_2_3`. -/
theorem pdf_image_names_use_global_counter :
    ∀ (doc : PdfDoc),
      (∀ pg ∈ doc.pages, ∀ i ∈ pg.images, i ≠ none) →
      ∃ html dict, parse_pdf doc = (Except.ok (html, dict), true)
        ∧ dict.map Prod.fst = pdfSpecNames doc.pages := by
  intro doc h
  obtain ⟨texts, dict, heq, hmap⟩ := pdfPages_ok doc.pages 0 1 h
  refine ⟨"<html><head><meta charset='utf-8'><title>Konvertiertes PDF</title></head><body>"
      ++ String.join texts ++ "</body></html>", dict, ?_, ?_⟩
  · simp [parse_pdf, heq]
  · rw [hmap, pdfNamesPages_eq, pdfSpecNames]
    refine flatMap_congrFun _ _ _ ?_
    intro pe
    refine map_congrFun _ _ _ ?_
    intro ie
    have h1 : 0 + pe.1 = pe.1 := by omega
    have h2 : 1 + pdfPrior doc.pages pe.1 + ie.1 = pdfPrior doc.pages pe.1 + ie.1 + 1 := by
      omega
    rw [h1, h2]

theorem pdf_image_names_use_global_counter_witness :
    ∃ html dict,
      parse_pdf ⟨[⟨"A", [some ⟨"png", "e1"⟩, some ⟨"png", "e2"⟩]⟩, ⟨"B", [some ⟨"png", "e3"⟩]⟩]⟩
          = (Except.ok (html, dict), true)
        ∧ dict.map Prod.fst
            = pdfSpecNames [⟨"A", [some ⟨"png", "e1"⟩, some ⟨"png", "e2"⟩]⟩,
                ⟨"B", [some ⟨"png", "e3"⟩]⟩] :=
  pdf_image_names_use_global_counter
    ⟨[⟨"A", [some ⟨"png", "e1"⟩, some ⟨"png", "e2"⟩]⟩, ⟨"B", [some ⟨"png", "e3"⟩]⟩]⟩
    (by decide)

/-- C3 (counterexample): a 2-page PDF with two images on page 1 and one
image on page 2 names the third image `pdf_image_2_3.png`, not the
`pdf_image_2_1.*` that a per-page counter restart would give. -/
theorem pdf_image_counter_not_reset :
    ((parse_pdf ⟨[⟨"PA", [some ⟨"png", "d1"⟩, some ⟨"png", "d2"⟩]⟩,
          ⟨"PB", [some ⟨"png", "d3"⟩]⟩]⟩).1.toOption.map (fun r => r.2.map Prod.fst))
      = some ["pdf_image_1_1.png", "pdf_image_1_2.png", "pdf_image_2_3.png"]
    ∧ ["pdf_image_1_1.png", "pdf_image_1_2.png", "pdf_image_2_3.png"]
        ≠ ["pdf_image_1_1.png", "pdf_image_1_2.png", "pdf_image_2_1.png"] := by
  exact ⟨rfl, by decide⟩
